import Mathlib

/-!
Shallow embedding of the image-to-text-quest OCR/PDF extraction component
(`src/components/OCRProcessor.tsx` and the upload layer), together with
proofs about its word counter, five-strategy PDF extraction cascade,
image OCR adapter and file-collection merge pipeline.

JavaScript strings are embedded as Lean `String`/`List Char`; `undefined`
is embedded as `Option.none`; a thrown exception from a strategy is the
`none` outcome.  `String.prototype.split(regex)` followed by discarding
empty tokens coincides with per-character `List.splitOnP` followed by the
same filter, which is how the source's `split(/\s+/)` pipelines are
embedded (every use in the source discards empty tokens afterwards).
-/

/-- Whitespace class of JavaScript regular expressions (`\s`) and of
`String.prototype.trim`, restricted to the code points the program can
produce. -/
def isJsWs (c : Char) : Bool :=
  c = ' ' || c = '\t' || c = '\n' || c = '\r' || c = '\x0b' || c = '\x0c' ||
  c = '\xa0' || c = '\u1680' || ('\u2000' ≤ c && c ≤ '\u200a') ||
  c = '\u2028' || c = '\u2029' || c = '\u202f' || c = '\u205f' ||
  c = '\u3000' || c = '\ufeff'


/-- ASCII letter, the `[a-zA-Z]` character class. -/
def isAsciiLetter (c : Char) : Bool :=
  ('a' ≤ c && c ≤ 'z') || ('A' ≤ c && c ≤ 'Z')

/-- ASCII digit, the `[0-9]` character class. -/
def isAsciiDigit (c : Char) : Bool :=
  '0' ≤ c && c ≤ '9'

/-- Character class `[a-zA-Z0-9\s.,!?;:-]` used by `processPDFManual`
(solution 5). -/
def isManualChar (c : Char) : Bool :=
  isAsciiLetter c || isAsciiDigit c || isJsWs c ||
  c = '.' || c = ',' || c = '!' || c = '?' || c = ';' || c = ':' || c = '-'

/-- Character class `[\w\s\-.,!?;:]` used by `processPDFSimple`
(solution 4); `\w` is `[a-zA-Z0-9_]`. -/
def isSimpleChar (c : Char) : Bool :=
  isAsciiLetter c || isAsciiDigit c || c = '_' || isJsWs c ||
  c = '-' || c = '.' || c = ',' || c = '!' || c = '?' || c = ';' || c = ':'

/-- JavaScript `String.prototype.trim` on a character list: drop leading
and trailing whitespace. -/
def jsTrimL (cs : List Char) : List Char :=
  ((cs.dropWhile isJsWs).reverse.dropWhile isJsWs).reverse

/-- JavaScript `String.prototype.trim`. -/
def jsTrim (s : String) : String :=
  String.mk (jsTrimL s.toList)

/-- JavaScript array join with a single-space separator, as used on the
word list of solution 5. -/
def joinWords : List (List Char) → List Char
  | [] => []
  | [w] => w
  | w :: ws => w ++ ' ' :: joinWords ws

/-- The `countWords` helper of `OCRProcessor`:
`if (!text) return 0; return text.trim().split(/\s+/).filter(w => w.length > 0).length`.
The `none` input embeds a JavaScript `undefined` argument. -/
def countWords (text : Option String) : Nat :=
  match text with
  | none => 0
  | some t =>
    if t = "" then 0
    else ((((jsTrim t).toList.splitOnP isJsWs)).filter (fun w => w.length > 0)).length

/-- The browser `File` value: name, MIME type (the `file.type` property)
and content bytes. -/
structure JsFile where
  name : String
  type : String
  bytes : List Nat
deriving DecidableEq

/-- The declared kind of an uploaded file. -/
inductive FileKind
  | image
  | pdf
deriving DecidableEq

/-- The `UploadedFile` record of `FileUpload.tsx`; optional fields embed
the `?:` properties of the TypeScript interface. -/
structure UploadedFile where
  id : String
  file : JsFile
  type : FileKind
  preview : Option String
  text : Option String
  wordCount : Option Nat
  processing : Option Bool
deriving DecidableEq

/-- JavaScript `String.prototype.startsWith`, embedded over character
lists so that it evaluates by kernel reduction. -/
def jsStartsWith (s pre : String) : Bool :=
  List.isPrefixOf pre.toList s.toList

/-- One file of the `onDrop` handler of `FileUpload.tsx`: unsupported MIME
types yield `none` (the source returns `null` and filters it out), and a
supported file is created with `processing = true` and no text.
`objectUrl` embeds the result of `URL.createObjectURL`. -/
def ingestFile (id : String) (f : JsFile) (objectUrl : String) : Option UploadedFile :=
  let isImage := jsStartsWith f.type "image/"
  let isPDF := f.type = "application/pdf"
  if !isImage && !isPDF then none
  else some
    { id := id
      file := f
      type := if isImage then FileKind.image else FileKind.pdf
      preview := if isImage then some objectUrl else none
      text := none
      wordCount := none
      processing := some true }

/-- The full `onDrop` handler: ingest each dropped file and append the
accepted ones to the current collection. -/
def onDrop (files : List UploadedFile) (dropped : List (String × JsFile × String)) :
    List UploadedFile :=
  files ++ dropped.filterMap (fun d => ingestFile d.1 d.2.1 d.2.2)

/-- Page text of the structured-parse strategies: the page's text items
joined by single spaces. -/
def pageText (items : List String) : String :=
  String.intercalate " " items

/-- Solution 1 (`processPDFWithWorker`) on the page structure the PDF
library reports: every page's text followed by a newline, concatenated,
then trimmed. -/
def processPDFWithWorker (pages : List (List String)) : String :=
  jsTrim (String.join (pages.map (fun items => pageText items ++ "\n")))

/-- Solution 2 (`processPDFLegacy`): the same page walk as solution 1,
only the library configuration differs. -/
def processPDFLegacy (pages : List (List String)) : String :=
  jsTrim (String.join (pages.map (fun items => pageText items ++ "\n")))

/-- Text computed by solution 3 (`processPDFWithOCR`) from the per-page
OCR results: at most the first 3 pages, each followed by a newline,
concatenated and trimmed. -/
def processPDFWithOCRText (pages : List String) : String :=
  jsTrim (String.join ((pages.take 3).map (fun p => p ++ "\n")))

/-- Solution 3 (`processPDFWithOCR`) including its effect on the
process-wide `GlobalWorkerOptions.workerSrc`.  `workerSrc` is the global
value before the call; `arrayBufferOk` tells whether reading the file
bytes (which happens before the global is touched) succeeds; `pages` is
`none` when the subsequent parse/render/OCR work throws.  The result
pairs the outcome with the value of the global after the call: the
source saves the original, sets the global to the empty string, and
writes the original back only on the success path (the `catch` block
rethrows without restoring). -/
def processPDFWithOCR (workerSrc : String) (arrayBufferOk : Bool)
    (pages : Option (List String)) : Except Unit String × String :=
  if arrayBufferOk then
    let originalWorkerSrc := workerSrc
    match pages with
    | some ps => (Except.ok (processPDFWithOCRText ps), originalWorkerSrc)
    | none => (Except.error (), "")
  else (Except.error (), workerSrc)

/-- Line cleaning of solution 4: replace every character outside
`[\w\s\-.,!?;:]` by a space, then trim. -/
def cleanLine (line : List Char) : List Char :=
  jsTrimL (line.map (fun c => if isSimpleChar c then c else ' '))

/-- Solution 4 (`processPDFSimple`): split the file content (decoded as
text) on newlines, clean each line, keep cleaned lines longer than 3
characters containing a letter, append each kept line plus a space, and
trim the accumulated result. -/
def processPDFSimple (text : String) : String :=
  let lines := text.toList.splitOnP (fun c => c = '\n')
  let extracted :=
    ((lines.map cleanLine).filter
      (fun cl => 3 < cl.length && cl.any isAsciiLetter)).foldl
      (fun acc cl => acc ++ cl ++ [' ']) []
  String.mk (jsTrimL extracted)

/-- Solution 5 (`processPDFManual`): iterate `i` over `[0, length - 1)`
of the byte array — note the source's loop bound skips the final byte —
keep the characters (`String.fromCharCode`) matching
`[a-zA-Z0-9\s.,!?;:-]`, split the result on whitespace, keep tokens
longer than 2 characters containing a letter, and join them with single
spaces. -/
def processPDFManual (bytes : List Nat) : String :=
  let text := (bytes.take (bytes.length - 1)).filterMap
    (fun b => let c := Char.ofNat b; if isManualChar c then some c else none)
  let words := (text.splitOnP isJsWs).filter
    (fun w => 2 < w.length && w.any isAsciiLetter)
  String.mk (joinWords words)

/-- Modelled from the spec: the raw-byte-character-filter strategy as the
specification states it — it "reads the entire file as a byte array",
with no byte skipped, then applies the same character filter, whitespace
split, token filter and space join as `processPDFManual`. -/
def processPDFManualSpec (bytes : List Nat) : String :=
  let text := bytes.filterMap
    (fun b => let c := Char.ofNat b; if isManualChar c then some c else none)
  let words := (text.splitOnP isJsWs).filter
    (fun w => 2 < w.length && w.any isAsciiLetter)
  String.mk (joinWords words)

/-- Outcome of one processing run over a PDF file: for each strategy, the
data the external collaborators would hand it, or `none` when that
strategy's library calls throw. -/
structure PDFRun where
  workerPages : Option (List (List String))
  legacyPages : Option (List (List String))
  ocrPages : Option (List String)
  rawText : Option String
  rawBytes : Option (List Nat)

/-- The `solutions` array of `processPDF`: the five named strategies in
their fixed order, each paired with its outcome on this run (`none`
embeds a thrown failure). -/
def solutions (run : PDFRun) : List (String × Option String) :=
  [("PDF.js com Worker CDN", run.workerPages.map processPDFWithWorker),
   ("PDF.js Legacy", run.legacyPages.map processPDFLegacy),
   ("PDF para Canvas + OCR", run.ocrPages.map processPDFWithOCRText),
   ("Extração Simples", run.rawText.map processPDFSimple),
   ("Parser Manual", run.rawBytes.map processPDFManual)]

/-- The strategy loop of `processPDF`: try each strategy in order, accept
the first result that is non-empty (`text` truthy) and longer than 10
characters, and also report the names of the strategies attempted (one
`toast.info` per attempted strategy, in order). -/
def tryStrategies : List (String × Option String) → Option String × List String
  | [] => (none, [])
  | (name, res) :: rest =>
    match res with
    | none => ((tryStrategies rest).1, name :: (tryStrategies rest).2)
    | some text =>
      if text ≠ "" && text.length > 10 then (some text, [name])
      else ((tryStrategies rest).1, name :: (tryStrategies rest).2)

/-- The `processPDF` orchestrator: run the five solutions in order and
return the updated file together with the attempted-strategy names.  On
acceptance the file gets the accepted text, its word count and
`processing = false`; when all five strategies are exhausted it gets the
empty text, word count 0 and `processing = false`.  The function is
total: no strategy failure propagates to the caller. -/
def processPDF (file : UploadedFile) (run : PDFRun) : UploadedFile × List String :=
  match tryStrategies (solutions run) with
  | (some text, attempted) =>
    ({ file with
        text := some text
        wordCount := some (countWords (some text))
        processing := some false }, attempted)
  | (none, attempted) =>
    ({ file with
        text := some ""
        wordCount := some 0
        processing := some false }, attempted)

/-- The `processImage` adapter: `engine` is the text recognized by the
external OCR engine, or `none` when the engine throws.  On success the
file gets the trimmed text and its word count; on failure the empty
text and word count 0; `processing` is cleared either way and no failure
propagates. -/
def processImage (file : UploadedFile) (engine : Option String) : UploadedFile :=
  match engine with
  | some raw =>
    let extractedText := jsTrim raw
    { file with
        text := some extractedText
        wordCount := some (countWords (some extractedText))
        processing := some false }
  | none =>
    { file with
        text := some ""
        wordCount := some 0
        processing := some false }

/-- JavaScript truthiness of an optional string (`undefined` and the
empty string are falsy). -/
def jsTruthyStr : Option String → Bool
  | none => false
  | some s => s ≠ ""

/-- The pending filter of `processFiles`: `f.processing && !f.text`. -/
def isPending (f : UploadedFile) : Bool :=
  f.processing = some true && !(jsTruthyStr f.text)

/-- External outcomes for one pass of the pipeline: what the OCR engine
returns for each image file and what the PDF collaborators return for
each PDF file, keyed by file id. -/
structure RunEnv where
  imageResult : String → Option String
  pdfRun : String → PDFRun

/-- Dispatch of `processFiles`: image files go to the image adapter, all
others to the PDF orchestrator. -/
def dispatch (env : RunEnv) (f : UploadedFile) : UploadedFile :=
  if f.type = FileKind.image then processImage f (env.imageResult f.id)
  else (processPDF f (env.pdfRun f.id)).1

/-- The merge of `processFiles`:
`files.map(f => f.id === file.id ? processedFile : f)`. -/
def mergeFile (files : List UploadedFile) (fid : String) (pf : UploadedFile) :
    List UploadedFile :=
  files.map (fun g => if g.id = fid then pf else g)

/-- One pass of the `processFiles` loop: the sequence of collections
handed to `onFilesUpdate`, in order — one per pending file, each built by
mapping over the `files` value captured by the effect closure. -/
def processFiles (env : RunEnv) (files : List UploadedFile) :
    List (List UploadedFile) :=
  (files.filter isPending).map (fun f => mergeFile files f.id (dispatch env f))

/-- Modelled from the spec: token counting by scanning characters and
counting the positions that start a maximal run of non-whitespace — the
"number of maximal whitespace-delimited non-empty tokens".  The flag
records whether the previous character was part of a token. -/
def countTokensAux : Bool → List Char → Nat
  | _, [] => 0
  | inTok, c :: cs =>
    if isJsWs c then countTokensAux false cs
    else (if inTok then 0 else 1) + countTokensAux true cs

/-- Modelled from the spec: the number of maximal whitespace-delimited
non-empty tokens of a string. -/
def specTokenCount (s : String) : Nat :=
  countTokensAux false s.toList

/-- A strategy outcome the orchestrator does not accept: a thrown failure
or a returned string at or below the 10-character acceptance threshold
(the empty string has length 0 and is also below it). -/
def rejectedOutcome : Option String → Bool
  | none => true
  | some t => t.length ≤ 10

/-- Data-model invariant of `UploadedFile` stated by the specification:
`wordCount` is defined iff `text` is defined, and a cleared processing
flag implies both are defined. -/
def fileInvariant (f : UploadedFile) : Prop :=
  (f.wordCount.isSome ↔ f.text.isSome) ∧
  (f.processing = some false → f.text.isSome ∧ f.wordCount.isSome)

instance fileInvariantDecidable (f : UploadedFile) : Decidable (fileInvariant f) :=
  inferInstanceAs (Decidable (_ ∧ _))

/-- A freshly ingested, still pending PDF file, used as concrete input. -/
def samplePDFFile : UploadedFile :=
  { id := "pdf-1", file := { name := "doc.pdf", type := "application/pdf", bytes := [] },
    type := FileKind.pdf, preview := none, text := none, wordCount := none,
    processing := some true }

/-- An already processed image file, used as concrete input. -/
def sampleDoneImage : UploadedFile :=
  { id := "img-2", file := { name := "photo.png", type := "image/png", bytes := [] },
    type := FileKind.image, preview := some "blob:2", text := some "done text",
    wordCount := some 2, processing := some false }

/-- An already processed PDF file, used as concrete input. -/
def sampleDonePDF : UploadedFile :=
  { id := "pdf-3", file := { name := "done.pdf", type := "application/pdf", bytes := [] },
    type := FileKind.pdf, preview := none, text := some "already extracted",
    wordCount := some 2, processing := some false }

/-- A concrete three-file collection with one pending file. -/
def sampleFiles : List UploadedFile := [samplePDFFile, sampleDoneImage, sampleDonePDF]

/-- A concrete run where strategies (a) and (b) throw and strategy (c)
recognizes the lorem-ipsum line. -/
def sampleLoremRun : PDFRun :=
  { workerPages := none, legacyPages := none,
    ocrPages := some ["lorem ipsum dolor sit amet"], rawText := none, rawBytes := none }

/-- A concrete run where all five strategies throw. -/
def sampleFailRun : PDFRun :=
  { workerPages := none, legacyPages := none, ocrPages := none,
    rawText := none, rawBytes := none }

/-- Concrete external outcomes for one pipeline pass. -/
def sampleEnv : RunEnv :=
  { imageResult := fun _ => some "  recognized words  ", pdfRun := fun _ => sampleLoremRun }

/-- The collection snapshot the pipeline emits for `samplePDFFile`. -/
def sampleUpdate : List UploadedFile :=
  mergeFile sampleFiles samplePDFFile.id (dispatch sampleEnv samplePDFFile)

/-! ### Helper lemmas about whitespace trimming -/

theorem dropWhile_cons_false {α : Type} (p : α → Bool) :
    ∀ (l : List α) (a : α) (t : List α), l.dropWhile p = a :: t → p a = false := by
  intro l
  induction l with
  | nil => intro a t h; cases h
  | cons b l ih =>
    intro a t h
    rw [List.dropWhile_cons] at h
    by_cases hb : p b
    · simp only [hb, if_true] at h
      exact ih a t h
    · simp only [hb, if_false] at h
      cases h
      simpa using hb

theorem dropWhile_dropWhile_eq {α : Type} (p : α → Bool) (l : List α) :
    (l.dropWhile p).dropWhile p = l.dropWhile p := by
  cases heq : l.dropWhile p with
  | nil => simp
  | cons a t =>
    rw [List.dropWhile_cons, dropWhile_cons_false p l a t heq]
    simp

theorem dropWhile_eq_self_of_head {α : Type} (p : α → Bool) (l : List α)
    (h : ∀ a, l.head? = some a → p a = false) : l.dropWhile p = l := by
  cases l with
  | nil => rfl
  | cons a t =>
    rw [List.dropWhile_cons, h a rfl]
    simp

theorem jsTrimL_idem (l : List Char) : jsTrimL (jsTrimL l) = jsTrimL l := by
  unfold jsTrimL
  obtain ⟨w, hw⟩ : ∃ w, l.dropWhile isJsWs
      = ((l.dropWhile isJsWs).reverse.dropWhile isJsWs).reverse ++ w := by
    refine ⟨((l.dropWhile isJsWs).reverse.takeWhile isJsWs).reverse, ?_⟩
    conv_lhs => rw [← List.reverse_reverse (l.dropWhile isJsWs),
      ← List.takeWhile_append_dropWhile isJsWs (l.dropWhile isJsWs).reverse]
    rw [List.reverse_append]
  have hvdrop : (((l.dropWhile isJsWs).reverse.dropWhile isJsWs).reverse).dropWhile isJsWs
      = ((l.dropWhile isJsWs).reverse.dropWhile isJsWs).reverse := by
    cases hcase : ((l.dropWhile isJsWs).reverse.dropWhile isJsWs).reverse with
    | nil => rfl
    | cons a t =>
      have hu2 : l.dropWhile isJsWs = a :: (t ++ w) := by
        rw [hw, hcase]
        rfl
      rw [List.dropWhile_cons, dropWhile_cons_false isJsWs l _ _ hu2]
      simp
  rw [hvdrop, List.reverse_reverse, dropWhile_dropWhile_eq]

theorem jsTrim_mk (l : List Char) : jsTrim (String.mk l) = String.mk (jsTrimL l) := rfl

theorem jsTrim_idem (s : String) : jsTrim (jsTrim s) = jsTrim s := by
  show String.mk (jsTrimL (jsTrimL s.toList)) = String.mk (jsTrimL s.toList)
  rw [jsTrimL_idem]

theorem jsTrimL_eq_self (l : List Char)
    (h1 : ∀ a, l.head? = some a → isJsWs a = false)
    (h2 : ∀ a, l.getLast? = some a → isJsWs a = false) : jsTrimL l = l := by
  unfold jsTrimL
  rw [dropWhile_eq_self_of_head isJsWs l h1]
  have : l.reverse.dropWhile isJsWs = l.reverse := by
    refine dropWhile_eq_self_of_head isJsWs l.reverse ?_
    intro a ha
    rw [List.head?_reverse] at ha
    exact h2 a ha
  rw [this, List.reverse_reverse]

/-! ### Helper lemmas about splitting and joining -/

theorem splitOnP_pieces {α : Type} (p : α → Bool) :
    ∀ (l : List α), ∀ w ∈ l.splitOnP p, ∀ c ∈ w, p c = false := by
  intro l
  induction l with
  | nil =>
    intro w hw c hc
    rw [List.splitOnP_nil] at hw
    simp only [List.mem_singleton] at hw
    subst hw
    cases hc
  | cons a l ih =>
    intro w hw c hc
    rw [List.splitOnP_cons] at hw
    by_cases hp : p a
    · simp only [hp, if_true, List.mem_cons] at hw
      rcases hw with hw | hw
      · subst hw; cases hc
      · exact ih w hw c hc
    · simp only [hp, if_false] at hw
      cases heq : l.splitOnP p with
      | nil => exact absurd heq (List.splitOnP_ne_nil p l)
      | cons h t =>
        rw [heq] at hw
        rw [List.modifyHead_cons] at hw
        rcases List.mem_cons.mp hw with hw2 | hw2
        · subst hw2
          rcases List.mem_cons.mp hc with hc2 | hc2
          · subst hc2
            simpa using hp
          · exact ih h (heq ▸ List.mem_cons_self h t) c hc2
        · exact ih w (heq ▸ List.mem_cons_of_mem h hw2) c hc

theorem joinWords_ne_nil (w : List Char) (ws : List (List Char)) (h : w ≠ []) :
    joinWords (w :: ws) ≠ [] := by
  cases ws with
  | nil => simpa [joinWords] using h
  | cons x xs =>
    simp only [joinWords]
    intro hcontra
    rcases List.append_eq_nil.mp hcontra with ⟨h1, _⟩
    exact h h1

theorem joinWords_head_mem :
    ∀ (ws : List (List Char)), (∀ w ∈ ws, w ≠ []) →
      ∀ a, (joinWords ws).head? = some a → ∃ w, w ∈ ws ∧ a ∈ w
  | [], _, a, ha => by cases ha
  | [w], hne, a, ha => by
    refine ⟨w, List.mem_singleton_self w, ?_⟩
    exact List.mem_of_mem_head? ha
  | w :: x :: xs, hne, a, ha => by
    have hw : w ≠ [] := hne w (List.mem_cons_self w (x :: xs))
    cases hcase : w with
    | nil => exact absurd hcase hw
    | cons b t =>
      subst hcase
      simp only [joinWords, List.cons_append, List.head?_cons, Option.some.injEq] at ha
      refine ⟨b :: t, List.mem_cons_self _ _, ?_⟩
      rw [← ha]
      exact List.mem_cons_self b t

theorem joinWords_getLast_mem :
    ∀ (ws : List (List Char)), (∀ w ∈ ws, w ≠ []) →
      ∀ a, (joinWords ws).getLast? = some a → ∃ w, w ∈ ws ∧ a ∈ w
  | [], _, a, ha => by cases ha
  | [w], hne, a, ha => by
    exact ⟨w, List.mem_singleton_self w, List.mem_of_mem_getLast? ha⟩
  | w :: x :: xs, hne, a, ha => by
    have hx : joinWords (x :: xs) ≠ [] :=
      joinWords_ne_nil x xs (hne x (List.mem_cons_of_mem w (List.mem_cons_self x xs)))
    have hrest : (joinWords (x :: xs)).getLast? = some a := by
      simp only [joinWords] at ha
      rw [List.getLast?_append] at ha
      cases hcase : (joinWords (x :: xs)) with
      | nil => exact absurd hcase hx
      | cons y ys =>
        rw [hcase] at ha
        rw [List.getLast?_cons_cons] at ha
        cases hz : (y :: ys).getLast? with
        | none =>
          rw [List.getLast?_eq_none_iff] at hz
          cases hz
        | some z =>
          rw [hz, Option.or_some] at ha
          exact ha
    obtain ⟨w', hw', ha'⟩ := joinWords_getLast_mem (x :: xs)
      (fun v hv => hne v (List.mem_cons_of_mem w hv)) a hrest
    exact ⟨w', List.mem_cons_of_mem w hw', ha'⟩

theorem joinWords_trim (ws : List (List Char)) (hne : ∀ w ∈ ws, w ≠ [])
    (hws : ∀ w ∈ ws, ∀ c ∈ w, isJsWs c = false) :
    jsTrimL (joinWords ws) = joinWords ws := by
  refine jsTrimL_eq_self (joinWords ws) ?_ ?_
  · intro a ha
    obtain ⟨w, hw, haw⟩ := joinWords_head_mem ws hne a ha
    exact hws w hw a haw
  · intro a ha
    obtain ⟨w, hw, haw⟩ := joinWords_getLast_mem ws hne a ha
    exact hws w hw a haw

/-! ### Helper lemmas about token counting -/

theorem countTokensAux_cons_ws (b : Bool) (c : Char) (cs : List Char) (h : isJsWs c = true) :
    countTokensAux b (c :: cs) = countTokensAux false cs := by
  simp [countTokensAux, h]

theorem countTokensAux_cons_tok_start (c : Char) (cs : List Char) (h : isJsWs c = false) :
    countTokensAux false (c :: cs) = 1 + countTokensAux true cs := by
  simp [countTokensAux, h]

theorem countTokensAux_cons_tok_cont (c : Char) (cs : List Char) (h : isJsWs c = false) :
    countTokensAux true (c :: cs) = countTokensAux true cs := by
  simp [countTokensAux, h]

theorem countTokensAux_all_ws :
    ∀ (ds : List Char), (∀ c ∈ ds, isJsWs c = true) →
      ∀ b, countTokensAux b ds = 0 := by
  intro ds
  induction ds with
  | nil => intro _ b; rfl
  | cons c cs ih =>
    intro h b
    rw [countTokensAux_cons_ws b c cs (h c (List.mem_cons_self c cs))]
    exact ih (fun d hd => h d (List.mem_cons_of_mem c hd)) false

theorem countTokensAux_append_ws :
    ∀ (l ds : List Char), (∀ c ∈ ds, isJsWs c = true) →
      ∀ b, countTokensAux b (l ++ ds) = countTokensAux b l := by
  intro l
  induction l with
  | nil =>
    intro ds h b
    rw [List.nil_append]
    exact countTokensAux_all_ws ds h b
  | cons a l ih =>
    intro ds h b
    rw [List.cons_append]
    by_cases ha : isJsWs a
    · rw [countTokensAux_cons_ws b a (l ++ ds) ha, countTokensAux_cons_ws b a l ha]
      exact ih ds h false
    · have ha' : isJsWs a = false := by simpa using ha
      cases b with
      | false =>
        rw [countTokensAux_cons_tok_start a (l ++ ds) ha',
          countTokensAux_cons_tok_start a l ha', ih ds h true]
      | true =>
        rw [countTokensAux_cons_tok_cont a (l ++ ds) ha',
          countTokensAux_cons_tok_cont a l ha', ih ds h true]

theorem countTokensAux_dropWhile (l : List Char) :
    countTokensAux false (l.dropWhile isJsWs) = countTokensAux false l := by
  induction l with
  | nil => rfl
  | cons a l ih =>
    rw [List.dropWhile_cons]
    by_cases ha : isJsWs a
    · simp only [ha, if_true]
      rw [ih, countTokensAux_cons_ws false a l ha]
    · simp only [ha, Bool.false_eq_true, if_false]

theorem countTokensAux_trim (l : List Char) :
    countTokensAux false (jsTrimL l) = countTokensAux false l := by
  unfold jsTrimL
  have hdecomp : l.dropWhile isJsWs
      = ((l.dropWhile isJsWs).reverse.dropWhile isJsWs).reverse
        ++ ((l.dropWhile isJsWs).reverse.takeWhile isJsWs).reverse := by
    conv_lhs => rw [← List.reverse_reverse (l.dropWhile isJsWs),
      ← List.takeWhile_append_dropWhile isJsWs (l.dropWhile isJsWs).reverse]
    rw [List.reverse_append]
  have hws : ∀ c ∈ ((l.dropWhile isJsWs).reverse.takeWhile isJsWs).reverse, isJsWs c = true := by
    intro c hc
    rw [List.mem_reverse] at hc
    exact List.mem_takeWhile_imp hc
  calc countTokensAux false (((l.dropWhile isJsWs).reverse.dropWhile isJsWs).reverse)
      = countTokensAux false (((l.dropWhile isJsWs).reverse.dropWhile isJsWs).reverse
          ++ ((l.dropWhile isJsWs).reverse.takeWhile isJsWs).reverse) :=
        (countTokensAux_append_ws _ _ hws false).symm
    _ = countTokensAux false (l.dropWhile isJsWs) := by rw [← hdecomp]
    _ = countTokensAux false l := countTokensAux_dropWhile l

theorem splitOnP_filter_count (l : List Char) :
    (((l.splitOnP isJsWs).filter (fun w => w.length > 0)).length = countTokensAux false l)
    ∧ ((((l.splitOnP isJsWs).tail).filter (fun w => w.length > 0)).length
        = countTokensAux true l) := by
  induction l with
  | nil =>
    constructor
    · rw [List.splitOnP_nil]
      rfl
    · rw [List.splitOnP_nil]
      rfl
  | cons a l ih =>
    rw [List.splitOnP_cons]
    by_cases ha : isJsWs a
    · simp only [ha, if_true, List.tail_cons]
      rw [countTokensAux_cons_ws false a l ha, countTokensAux_cons_ws true a l ha]
      have hfe : List.filter (fun (w : List Char) => w.length > 0)
          ([] :: l.splitOnP isJsWs) = List.filter (fun w => w.length > 0) (l.splitOnP isJsWs) := by
        rw [List.filter_cons_of_neg]
        simp
      constructor
      · rw [hfe]
        exact ih.1
      · exact ih.1
    · have ha' : isJsWs a = false := by simpa using ha
      simp only [ha', Bool.false_eq_true, if_false]
      cases heq : l.splitOnP isJsWs with
      | nil => exact absurd heq (List.splitOnP_ne_nil isJsWs l)
      | cons h t =>
        rw [List.modifyHead_cons]
        have hih2 := ih.2
        rw [heq] at hih2
        simp only [List.tail_cons] at hih2
        rw [countTokensAux_cons_tok_start a l ha', countTokensAux_cons_tok_cont a l ha']
        constructor
        · rw [List.filter_cons_of_pos (by simp)]
          rw [List.length_cons, hih2]
          omega
        · rw [List.tail_cons, hih2]

theorem countWords_eq_spec (s : String) : countWords (some s) = specTokenCount s := by
  unfold countWords specTokenCount
  by_cases hs : s = ""
  · subst hs
    rfl
  · simp only [hs, if_false]
    have h1 : (jsTrim s).toList = jsTrimL s.toList := rfl
    rw [h1]
    rw [(splitOnP_filter_count (jsTrimL s.toList)).1]
    exact countTokensAux_trim s.toList

theorem countTokensAux_dup_ws :
    ∀ (u : List Char) (c : Char) (v : List Char), isJsWs c = true →
      ∀ b, countTokensAux b (u ++ c :: c :: v) = countTokensAux b (u ++ c :: v) := by
  intro u
  induction u with
  | nil =>
    intro c v hc b
    rw [List.nil_append, List.nil_append]
    rw [countTokensAux_cons_ws b c (c :: v) hc, countTokensAux_cons_ws false c v hc,
      countTokensAux_cons_ws b c v hc]
  | cons a u ih =>
    intro c v hc b
    rw [List.cons_append, List.cons_append]
    by_cases ha : isJsWs a
    · rw [countTokensAux_cons_ws b a _ ha, countTokensAux_cons_ws b a _ ha]
      exact ih c v hc false
    · have ha' : isJsWs a = false := by simpa using ha
      cases b with
      | false =>
        rw [countTokensAux_cons_tok_start a _ ha', countTokensAux_cons_tok_start a _ ha',
          ih c v hc true]
      | true =>
        rw [countTokensAux_cons_tok_cont a _ ha', countTokensAux_cons_tok_cont a _ ha',
          ih c v hc true]

/-! ### Helper lemmas about the strategy loop -/

theorem tryStrategies_accepted :
    ∀ (l : List (String × Option String)) (t : String),
      (tryStrategies l).1 = some t → ∃ nm, (nm, some t) ∈ l := by
  intro l
  induction l with
  | nil => intro t ht; cases ht
  | cons pr rest ih =>
    intro t ht
    obtain ⟨name, res⟩ := pr
    cases res with
    | none =>
      simp only [tryStrategies] at ht
      obtain ⟨nm, hnm⟩ := ih t ht
      exact ⟨nm, List.mem_cons_of_mem _ hnm⟩
    | some text =>
      simp only [tryStrategies] at ht
      by_cases hacc : (text ≠ "" && text.length > 10) = true
      · rw [if_pos hacc] at ht
        simp only [Option.some.injEq] at ht
        subst ht
        exact ⟨name, List.mem_cons_self _ _⟩
      · rw [if_neg hacc] at ht
        obtain ⟨nm, hnm⟩ := ih t ht
        exact ⟨nm, List.mem_cons_of_mem _ hnm⟩

theorem tryStrategies_rejected_all :
    ∀ (l : List (String × Option String)),
      (∀ pr ∈ l, rejectedOutcome pr.2 = true) → (tryStrategies l).1 = none := by
  intro l
  induction l with
  | nil => intro _; rfl
  | cons pr rest ih =>
    intro h
    obtain ⟨name, res⟩ := pr
    have hres : rejectedOutcome res = true := h (name, res) (List.mem_cons_self _ _)
    have hrest : (tryStrategies rest).1 = none :=
      ih (fun q hq => h q (List.mem_cons_of_mem _ hq))
    cases res with
    | none => simpa [tryStrategies] using hrest
    | some text =>
      have hlen : text.length ≤ 10 := by simpa [rejectedOutcome] using hres
      have hcond : (text ≠ "" && text.length > 10) = false := by
        have : ¬ text.length > 10 := by omega
        simp [this]
      simp only [tryStrategies, hcond, Bool.false_eq_true, if_false]
      exact hrest

/-! ### Every strategy returns already-trimmed text -/

theorem trim_processPDFWithWorker (pages : List (List String)) :
    jsTrim (processPDFWithWorker pages) = processPDFWithWorker pages :=
  jsTrim_idem _

theorem trim_processPDFLegacy (pages : List (List String)) :
    jsTrim (processPDFLegacy pages) = processPDFLegacy pages :=
  jsTrim_idem _

theorem trim_processPDFWithOCRText (pages : List String) :
    jsTrim (processPDFWithOCRText pages) = processPDFWithOCRText pages :=
  jsTrim_idem _

theorem trim_processPDFSimple (text : String) :
    jsTrim (processPDFSimple text) = processPDFSimple text := by
  unfold processPDFSimple
  rw [jsTrim_mk, jsTrimL_idem]

theorem trim_processPDFManual (bytes : List Nat) :
    jsTrim (processPDFManual bytes) = processPDFManual bytes := by
  unfold processPDFManual
  rw [jsTrim_mk]
  congr 1
  apply joinWords_trim
  · intro w hw
    have := (List.mem_filter.mp hw).2
    have hlen : 2 < w.length := by
      have hb := Bool.and_elim_left this
      simpa using hb
    intro hnil
    rw [hnil] at hlen
    simp at hlen
  · intro w hw c hc
    have hmem := (List.mem_filter.mp hw).1
    exact splitOnP_pieces isJsWs _ w hmem c hc

theorem solutions_accepted_trimmed (run : PDFRun) :
    ∀ pr ∈ solutions run, ∀ t : String, pr.2 = some t → jsTrim t = t := by
  intro pr hpr t ht
  simp only [solutions, List.mem_cons, List.not_mem_nil, or_false] at hpr
  rcases hpr with h | h | h | h | h
  · subst h
    simp only [Option.map_eq_some'] at ht
    obtain ⟨x, _, hx⟩ := ht
    rw [← hx]
    exact trim_processPDFWithWorker x
  · subst h
    simp only [Option.map_eq_some'] at ht
    obtain ⟨x, _, hx⟩ := ht
    rw [← hx]
    exact trim_processPDFLegacy x
  · subst h
    simp only [Option.map_eq_some'] at ht
    obtain ⟨x, _, hx⟩ := ht
    rw [← hx]
    exact trim_processPDFWithOCRText x
  · subst h
    simp only [Option.map_eq_some'] at ht
    obtain ⟨x, _, hx⟩ := ht
    rw [← hx]
    exact trim_processPDFSimple x
  · subst h
    simp only [Option.map_eq_some'] at ht
    obtain ⟨x, _, hx⟩ := ht
    rw [← hx]
    exact trim_processPDFManual x

/-! ### Invariant helpers -/

theorem fileInvariant_processPDF (file : UploadedFile) (run : PDFRun) :
    fileInvariant (processPDF file run).1 := by
  unfold processPDF
  rcases htry : tryStrategies (solutions run) with ⟨res, att⟩
  cases res with
  | some text => simp [fileInvariant]
  | none => simp [fileInvariant]

theorem fileInvariant_processImage (file : UploadedFile) (engine : Option String) :
    fileInvariant (processImage file engine) := by
  unfold processImage
  cases engine with
  | some raw => simp [fileInvariant]
  | none => simp [fileInvariant]

theorem fileInvariant_dispatch (env : RunEnv) (f : UploadedFile) :
    fileInvariant (dispatch env f) := by
  unfold dispatch
  by_cases hk : f.type = FileKind.image
  · simp only [hk, if_true]
    exact fileInvariant_processImage f (env.imageResult f.id)
  · simp only [hk, if_false]
    exact fileInvariant_processPDF f (env.pdfRun f.id)

theorem dispatch_id (env : RunEnv) (f : UploadedFile) : (dispatch env f).id = f.id := by
  unfold dispatch
  by_cases hk : f.type = FileKind.image
  · simp only [hk, if_true]
    unfold processImage
    cases env.imageResult f.id with
    | some raw => rfl
    | none => rfl
  · simp only [hk, if_false]
    unfold processPDF
    rcases htry : tryStrategies (solutions (env.pdfRun f.id)) with ⟨res, att⟩
    cases res with
    | some text => rfl
    | none => rfl

/-! ### Claims -/

/-- C5: the raw-byte-character-filter strategy (e) is claimed to read the
entire byte array; the source's loop bound `i < uint8Array.length - 1`
skips the final byte.  On the bytes of the ASCII text abcd the code
yields abc while the spec-faithful reading of the whole array yields
abcd. -/
theorem processPDFManual_skips_last_byte :
    processPDFManual [97, 98, 99, 100] = "abc" ∧
    processPDFManualSpec [97, 98, 99, 100] = "abcd" ∧
    processPDFManual [97, 98, 99, 100] ≠ processPDFManualSpec [97, 98, 99, 100] := by
  refine ⟨by decide, by decide, by decide⟩

/-- C6: the word counter agrees, on every string, with the number of
maximal whitespace-delimited non-empty tokens; `undefined` and the empty
string yield 0; the documented examples hold; and the count is invariant
under duplicating an interior (or any) whitespace character. -/
theorem countWords_spec :
    (∀ s : String, countWords (some s) = specTokenCount s) ∧
    countWords none = 0 ∧ countWords (some "") = 0 ∧
    countWords (some "  a   b  ") = 2 ∧ countWords (some "one") = 1 ∧
    (∀ (u v : List Char) (c : Char), isJsWs c = true →
      countWords (some (String.mk (u ++ c :: c :: v)))
        = countWords (some (String.mk (u ++ c :: v)))) := by
  refine ⟨countWords_eq_spec, rfl, rfl, by decide, by decide, ?_⟩
  intro u v c hc
  rw [countWords_eq_spec, countWords_eq_spec]
  unfold specTokenCount
  have h1 : (String.mk (u ++ c :: c :: v)).toList = u ++ c :: c :: v := rfl
  have h2 : (String.mk (u ++ c :: v)).toList = u ++ c :: v := rfl
  rw [h1, h2]
  exact countTokensAux_dup_ws u c v hc false

/-- Witness for `countWords_spec` at concrete inputs. -/
theorem countWords_spec_witness :
    isJsWs ' ' = true ∧
    countWords (some (String.mk (['a'] ++ ' ' :: ' ' :: ['b'])))
      = countWords (some (String.mk (['a'] ++ ' ' :: ['b']))) :=
  ⟨by decide, countWords_spec.2.2.2.2.2 ['a'] ['b'] ' ' (by decide)⟩

/-- C7: the image OCR adapter stores the engine text trimmed with its
word count and clears the processing flag; on an engine failure it
completes with empty text and word count 0 instead of propagating the
failure. -/
theorem processImage_contract :
    ∀ (file : UploadedFile),
      (∀ raw : String, processImage file (some raw)
        = { file with text := some (jsTrim raw),
                      wordCount := some (countWords (some (jsTrim raw))),
                      processing := some false }) ∧
      processImage file none
        = { file with text := some "", wordCount := some 0, processing := some false } := by
  intro file
  exact ⟨fun raw => rfl, rfl⟩

/-- C8 counterexample: when strategy (c) fails after mutating the global
worker source, the global is left as the empty string, not restored to
its prior value. -/
theorem processPDFWithOCR_worker_lost_on_failure :
    (processPDFWithOCR "https://cdn.example/pdf.worker.min.js" true none).2
      ≠ "https://cdn.example/pdf.worker.min.js" := by
  decide

/-- C8 (amended): strategy (c) restores the global worker source when it
returns text (and leaves it untouched when reading the file bytes fails
before the mutation), but a failure after the mutation leaves the global
set to the empty string. -/
theorem processPDFWithOCR_worker_restore :
    ∀ (workerSrc : String) (pages : List String) (r : Option (List String)),
      (processPDFWithOCR workerSrc true (some pages)).2 = workerSrc ∧
      (processPDFWithOCR workerSrc true none).2 = "" ∧
      (processPDFWithOCR workerSrc false r).2 = workerSrc := by
  intro workerSrc pages r
  exact ⟨rfl, rfl, rfl⟩

/-- C1: when strategies (a) and (b) fail and strategy (c) returns the
26-character lorem-ipsum line, the orchestrator stores exactly that text
with word count 5, and the attempted-strategy trace stops at strategy
(c): strategies (d) and (e) are never invoked. -/
theorem processPDF_order_first_accepted (file : UploadedFile) (run : PDFRun)
    (ha : run.workerPages = none) (hb : run.legacyPages = none)
    (hc : run.ocrPages.map processPDFWithOCRText = some "lorem ipsum dolor sit amet") :
    (processPDF file run).1.text = some "lorem ipsum dolor sit amet" ∧
    (processPDF file run).1.wordCount = some 5 ∧
    (processPDF file run).1.processing = some false ∧
    (processPDF file run).2
      = ["PDF.js com Worker CDN", "PDF.js Legacy", "PDF para Canvas + OCR"] := by
  have hsol : solutions run
      = [("PDF.js com Worker CDN", none), ("PDF.js Legacy", none),
         ("PDF para Canvas + OCR", some "lorem ipsum dolor sit amet"),
         ("Extração Simples", run.rawText.map processPDFSimple),
         ("Parser Manual", run.rawBytes.map processPDFManual)] := by
    unfold solutions
    rw [ha, hb, hc]
    rfl
  have hcond : (("lorem ipsum dolor sit amet" ≠ "")
      && ("lorem ipsum dolor sit amet".length > 10)) = true := by decide
  have htry : tryStrategies (solutions run)
      = (some "lorem ipsum dolor sit amet",
         ["PDF.js com Worker CDN", "PDF.js Legacy", "PDF para Canvas + OCR"]) := by
    rw [hsol]
    simp only [tryStrategies, hcond, if_true]
  unfold processPDF
  rw [htry]
  refine ⟨rfl, ?_, rfl, rfl⟩
  show some (countWords (some "lorem ipsum dolor sit amet")) = some 5
  decide

/-- Witness for `processPDF_order_first_accepted` on the sample run. -/
theorem processPDF_order_first_accepted_witness :
    sampleLoremRun.workerPages = none ∧ sampleLoremRun.legacyPages = none ∧
    sampleLoremRun.ocrPages.map processPDFWithOCRText
      = some "lorem ipsum dolor sit amet" ∧
    (processPDF samplePDFFile sampleLoremRun).1.text
      = some "lorem ipsum dolor sit amet" ∧
    (processPDF samplePDFFile sampleLoremRun).1.wordCount = some 5 ∧
    (processPDF samplePDFFile sampleLoremRun).2
      = ["PDF.js com Worker CDN", "PDF.js Legacy", "PDF para Canvas + OCR"] := by
  have h := processPDF_order_first_accepted samplePDFFile sampleLoremRun
    (by decide) (by decide) (by decide)
  exact ⟨by decide, by decide, by decide, h.1, h.2.1, h.2.2.2⟩

/-- C2: the acceptance test of the strategy loop rejects any returned
string of length at most 10 and goes on to attempt the next strategy
even though no failure occurred, while a non-empty string longer than 10
characters is accepted on the spot. -/
theorem acceptance_threshold (name : String) (t : String)
    (rest : List (String × Option String)) (h : t.length ≤ 10) :
    tryStrategies ((name, some t) :: rest)
      = ((tryStrategies rest).1, name :: (tryStrategies rest).2) ∧
    ∀ u : String, u ≠ "" → u.length > 10 →
      tryStrategies ((name, some u) :: rest) = (some u, [name]) := by
  constructor
  · have hcond : (t ≠ "" && t.length > 10) = false := by
      have hn : ¬ t.length > 10 := by omega
      simp [hn]
    simp only [tryStrategies, hcond, Bool.false_eq_true, if_false]
  · intro u hu hlen
    have hcond : (u ≠ "" && u.length > 10) = true := by simp [hu, hlen]
    simp only [tryStrategies, hcond, if_true]

/-- Witness for `acceptance_threshold` at concrete inputs. -/
theorem acceptance_threshold_witness :
    ("short words").length > 10 ∨
    (("short").length ≤ 10 ∧
     tryStrategies [("A", some "short"), ("B", some "plenty of characters")]
       = ((tryStrategies [("B", some "plenty of characters")]).1,
          "A" :: (tryStrategies [("B", some "plenty of characters")]).2) ∧
     tryStrategies [("A", some "plenty of characters")]
       = (some "plenty of characters", ["A"])) :=
  Or.inr ⟨by decide,
    (acceptance_threshold "A" "short" [("B", some "plenty of characters")] (by decide)).1,
    (acceptance_threshold "A" "short" [] (by decide)).2
      "plenty of characters" (by decide) (by decide)⟩

/-- C3: when every strategy of a run throws or returns output at or
below the 10-character threshold, the orchestrator completes with empty
text, word count 0 and a cleared processing flag; being a total
function, it propagates no failure to its caller. -/
theorem processPDF_exhaustion (file : UploadedFile) (run : PDFRun)
    (h : ∀ pr ∈ solutions run, rejectedOutcome pr.2 = true) :
    (processPDF file run).1.text = some "" ∧
    (processPDF file run).1.wordCount = some 0 ∧
    (processPDF file run).1.processing = some false := by
  have hnone := tryStrategies_rejected_all (solutions run) h
  rcases htry : tryStrategies (solutions run) with ⟨res, att⟩
  have hres : res = none := by
    rw [htry] at hnone
    exact hnone
  subst hres
  unfold processPDF
  rw [htry]
  exact ⟨rfl, rfl, rfl⟩

/-- Witness for `processPDF_exhaustion` on the all-failures run. -/
theorem processPDF_exhaustion_witness :
    (∀ pr ∈ solutions sampleFailRun, rejectedOutcome pr.2 = true) ∧
    (processPDF samplePDFFile sampleFailRun).1.text = some "" ∧
    (processPDF samplePDFFile sampleFailRun).1.wordCount = some 0 ∧
    (processPDF samplePDFFile sampleFailRun).1.processing = some false :=
  ⟨by decide, processPDF_exhaustion samplePDFFile sampleFailRun (by decide)⟩

/-- C4: every collection snapshot emitted during one pipeline pass is
the merge of a pending file's processed update into the captured
collection: it has the same length, holds the processed file exactly at
the positions whose id matches that file's id, and holds the original
entry unchanged at every other position. -/
theorem processFiles_merge_frame (env : RunEnv) (files : List UploadedFile)
    (u : List UploadedFile) (hu : u ∈ processFiles env files) :
    ∃ f, f ∈ files ∧ isPending f = true ∧
      (dispatch env f).id = f.id ∧
      u = mergeFile files f.id (dispatch env f) ∧
      u.length = files.length ∧
      ∀ i : Nat, u[i]?
        = (files[i]?).map (fun g => if g.id = f.id then dispatch env f else g) := by
  unfold processFiles at hu
  obtain ⟨f, hf, hmap⟩ := List.mem_map.mp hu
  have hfmem := List.mem_filter.mp hf
  refine ⟨f, hfmem.1, hfmem.2, dispatch_id env f, hmap.symm, ?_, ?_⟩
  · rw [← hmap]
    unfold mergeFile
    rw [List.length_map]
  · intro i
    rw [← hmap]
    unfold mergeFile
    rw [List.getElem?_map]

/-- Witness for `processFiles_merge_frame` on the sample pass. -/
theorem processFiles_merge_frame_witness :
    ∃ f, f ∈ sampleFiles ∧ isPending f = true ∧
      (dispatch sampleEnv f).id = f.id ∧
      sampleUpdate = mergeFile sampleFiles f.id (dispatch sampleEnv f) ∧
      sampleUpdate.length = sampleFiles.length ∧
      ∀ i : Nat, sampleUpdate[i]?
        = (sampleFiles[i]?).map
            (fun g => if g.id = f.id then dispatch sampleEnv f else g) :=
  processFiles_merge_frame sampleEnv sampleFiles sampleUpdate (by decide)

/-- C9: ingestion creates files satisfying the data-model invariant with
a raised processing flag and no text; both extraction entry points
always emit files satisfying the invariant; and a pipeline pass keeps
every file of every emitted snapshot within the invariant. -/
theorem uploadedFile_invariant :
    (∀ (id : String) (jf : JsFile) (url : String) (f : UploadedFile),
      ingestFile id jf url = some f →
        fileInvariant f ∧ f.processing = some true ∧ f.text = none ∧ f.wordCount = none) ∧
    (∀ (file : UploadedFile) (run : PDFRun), fileInvariant (processPDF file run).1) ∧
    (∀ (file : UploadedFile) (engine : Option String),
      fileInvariant (processImage file engine)) ∧
    (∀ (env : RunEnv) (files : List UploadedFile) (u : List UploadedFile),
      u ∈ processFiles env files → (∀ g ∈ files, fileInvariant g) →
      ∀ g ∈ u, fileInvariant g) := by
  refine ⟨?_, fileInvariant_processPDF, fileInvariant_processImage, ?_⟩
  · intro id jf url f h
    unfold ingestFile at h
    by_cases hcase : (!(jsStartsWith jf.type "image/") && !(jf.type = "application/pdf")) = true
    · rw [if_pos hcase] at h
      cases h
    · rw [if_neg hcase] at h
      simp only [Option.some.injEq] at h
      subst h
      refine ⟨?_, rfl, rfl, rfl⟩
      simp [fileInvariant]
  · intro env files u hu hg g hgu
    unfold processFiles at hu
    obtain ⟨f, hf, hmap⟩ := List.mem_map.mp hu
    rw [← hmap] at hgu
    unfold mergeFile at hgu
    obtain ⟨g0, hg0, hgeq⟩ := List.mem_map.mp hgu
    by_cases hid : g0.id = f.id
    · rw [if_pos hid] at hgeq
      rw [← hgeq]
      exact fileInvariant_dispatch env f
    · rw [if_neg hid] at hgeq
      rw [← hgeq]
      exact hg g0 hg0

/-- Witness for `uploadedFile_invariant` at concrete inputs. -/
theorem uploadedFile_invariant_witness :
    (fileInvariant
        { id := "img-9", file := { name := "photo.png", type := "image/png", bytes := [] },
          type := FileKind.image, preview := some "blob:9", text := none,
          wordCount := none, processing := some true }
      ∧ ({ id := "img-9",
           file := { name := "photo.png", type := "image/png", bytes := [] },
           type := FileKind.image, preview := some "blob:9", text := none,
           wordCount := none, processing := some true } : UploadedFile).processing
          = some true
      ∧ ({ id := "img-9",
           file := { name := "photo.png", type := "image/png", bytes := [] },
           type := FileKind.image, preview := some "blob:9", text := none,
           wordCount := none, processing := some true } : UploadedFile).text = none
      ∧ ({ id := "img-9",
           file := { name := "photo.png", type := "image/png", bytes := [] },
           type := FileKind.image, preview := some "blob:9", text := none,
           wordCount := none, processing := some true } : UploadedFile).wordCount = none)
    ∧ (∀ g ∈ sampleUpdate, fileInvariant g) :=
  ⟨uploadedFile_invariant.1 "img-9"
      { name := "photo.png", type := "image/png", bytes := [] } "blob:9" _ (by decide),
   uploadedFile_invariant.2.2.2 sampleEnv sampleFiles sampleUpdate
      (by decide) (by decide)⟩

/-- C10: every text stored on a completed file — by the PDF orchestrator
through any of its five strategies or its exhaustion path, or by the
image adapter on success or failure — equals its own trimmed form. -/
theorem stored_text_trimmed :
    (∀ (file : UploadedFile) (run : PDFRun) (t : String),
      (processPDF file run).1.text = some t → jsTrim t = t) ∧
    (∀ (file : UploadedFile) (engine : Option String) (t : String),
      (processImage file engine).text = some t → jsTrim t = t) := by
  constructor
  · intro file run t ht
    unfold processPDF at ht
    rcases htry : tryStrategies (solutions run) with ⟨res, att⟩
    rw [htry] at ht
    cases res with
    | some text =>
      simp only [Option.some.injEq] at ht
      subst ht
      have hacc : (tryStrategies (solutions run)).1 = some text := by
        rw [htry]
      obtain ⟨nm, hnm⟩ := tryStrategies_accepted _ text hacc
      exact solutions_accepted_trimmed run (nm, some text) hnm text rfl
    | none =>
      simp only [Option.some.injEq] at ht
      subst ht
      rfl
  · intro file engine t ht
    unfold processImage at ht
    cases engine with
    | some raw =>
      simp only [Option.some.injEq] at ht
      subst ht
      exact jsTrim_idem raw
    | none =>
      simp only [Option.some.injEq] at ht
      subst ht
      rfl

/-- Witness for `stored_text_trimmed` on the sample run. -/
theorem stored_text_trimmed_witness :
    (processPDF samplePDFFile sampleLoremRun).1.text
      = some "lorem ipsum dolor sit amet" ∧
    jsTrim "lorem ipsum dolor sit amet" = "lorem ipsum dolor sit amet" :=
  ⟨by decide,
   stored_text_trimmed.1 samplePDFFile sampleLoremRun
     "lorem ipsum dolor sit amet" (by decide)⟩
